import Mathlib

/-!
# Verification of the autonomous_research RAG core

Shallow embedding, in Lean 4, of the retrieval-augmented-generation core of
the `autonomous_research` repository:

* `DocumentProcessor.smart_chunk_text` and `DocumentProcessor.create_chunks`
  (`src/autonomous_research/rag/core.py`),
* `EnhancedEmbeddingManager.embed_text` / `embed_batch` (same file),
* `EnhancedVectorDatabase.search_similar_chunks`, `_fallback_search`,
  `_calculate_authority_score`, `_calculate_temporal_score`,
  `add_document` / `add_chunk_to_index` (`rag/vector_db.py`),
* `ElasticsearchVectorDatabase.add_document`, `search_similar_chunks`,
  `delete_document`, and its scoring helpers (`rag/elasticsearch_db.py`),
* `ContextOptimizer.compress_context` (`rag/integration.py`).

Python strings are embedded as `List Char`, Python floats as `ℚ`, Python
dicts in insertion order as association lists.  External backends (the FAISS
index, the sentence-transformer model, the Elasticsearch server, the numpy
random generator) are oracles: their answers are explicit inputs of the
embedded functions, exactly at the call boundary where the Python code
consumes them.
-/

/-! ## Python text primitives -/
/-- The whitespace characters stripped by Python's `str.strip()` (ASCII range,
which is all the repository's code paths exercise). -/
def isPySpace (c : Char) : Bool :=
  c = ' ' || c = '\t' || c = '\n' || c = '\r' || c = '\x0b' || c = '\x0c'

/-- Python `str.strip()`: drop leading and trailing whitespace. -/
def pyStrip (l : List Char) : List Char :=
  ((l.dropWhile isPySpace).reverse.dropWhile isPySpace).reverse

/-- Python `content.split('\n\n')`: split on each non-overlapping occurrence
of a blank-line separator, scanning left to right. -/
def splitOnNN : List Char → List (List Char)
  | [] => [[]]
  | '\n' :: '\n' :: rest => [] :: splitOnNN rest
  | c :: rest =>
    match splitOnNN rest with
    | [] => [[c]]
    | h :: t => (c :: h) :: t

/-- Sentence terminators of the regex `[.!?]+` used by `smart_chunk_text`. -/
def isSentSep (c : Char) : Bool :=
  c = '.' || c = '!' || c = '?'

/-- Split on every single sentence-terminator character.  Python's
`re.split(r'[.!?]+', paragraph)` collapses runs of terminators, but the
caller strips every piece and skips empty ones, so splitting on each
terminator separately yields exactly the same processed sentence stream. -/
def splitSeps : List Char → List (List Char)
  | [] => [[]]
  | c :: rest =>
    if isSentSep c then [] :: splitSeps rest
    else
      match splitSeps rest with
      | [] => [[c]]
      | h :: t => (c :: h) :: t

/-- Python `'sep'.join(parts)`. -/
def joinSep (sep : List Char) : List (List Char) → List Char
  | [] => []
  | [s] => s
  | s :: rest => s ++ sep ++ joinSep sep rest

/-- Python `str.lower()` (ASCII case folding, which covers every keyword the
code compares against). -/
def pyLower (l : List Char) : List Char := l.map Char.toLower

/-- Python `str.split()` with no argument: split on whitespace runs,
discarding empty pieces. -/
def pyWords (l : List Char) : List (List Char) :=
  (l.splitOnP isPySpace).filter (· ≠ [])

/-- Does the second list start with the first one? -/
def startsWithChars : List Char → List Char → Bool
  | [], _ => true
  | _ :: _, [] => false
  | a :: as, b :: bs => a = b && startsWithChars as bs

/-- Boolean test that `p` occurs as a contiguous substring of `l`
(Python's `p in l` on strings). -/
def containsSub (p : List Char) : List Char → Bool
  | [] => decide (p = [])
  | c :: rest => startsWithChars p (c :: rest) || containsSub p rest

/-! ## `DocumentProcessor.smart_chunk_text` (rag/core.py, lines 284-331)

The chunker state is the pair `(chunks, current_chunk)` threaded through the
two nested loops of the Python code. -/
/-- One iteration of the inner `for sentence in sentences` loop of
`smart_chunk_text` (the `len(paragraph) > chunk_size` branch). -/
def stepSentence (sz : Nat) (st : List (List Char) × List Char)
    (raw : List Char) : List (List Char) × List Char :=
  let s := pyStrip raw
  if s = [] then st
  else if st.2.length + s.length > sz then
    (st.1 ++ (if st.2 ≠ [] then [pyStrip st.2] else []), s)
  else
    (st.1, if st.2 = [] then s else st.2 ++ ' ' :: s)

/-- One iteration of the outer `for paragraph in paragraphs` loop of
`smart_chunk_text`. -/
def stepParagraph (sz : Nat) (st : List (List Char) × List Char)
    (p : List Char) : List (List Char) × List Char :=
  if p.length > sz then
    (splitSeps p).foldl (stepSentence sz) st
  else if st.2.length + p.length > sz then
    (st.1 ++ (if st.2 ≠ [] then [pyStrip st.2] else []), p)
  else
    (st.1, if st.2 = [] then p else st.2 ++ '\n' :: '\n' :: p)

/-- `DocumentProcessor.smart_chunk_text(content, chunk_size)`: split into
paragraphs on blank lines, greedily pack paragraphs (splitting oversized
paragraphs into sentences), flush the trailing buffer, and drop
whitespace-only chunks. -/
def smart_chunk_text (content : List Char) (sz : Nat) : List (List Char) :=
  let st := (splitOnNN content).foldl (stepParagraph sz) ([], [])
  let chunks := st.1 ++ (if st.2 ≠ [] then [pyStrip st.2] else [])
  chunks.filter (fun c => pyStrip c ≠ [])

/-- The chunk `c` is (the strip of) one single sentence of an oversized
paragraph of the input: the only situation in which `smart_chunk_text` may
emit a chunk longer than `chunk_size + 2`. -/
def IsStrippedSentence (paras : List (List Char)) (sz : Nat) (c : List Char) : Prop :=
  ∃ p, p ∈ paras ∧ sz < p.length ∧ ∃ raw, raw ∈ splitSeps p ∧ c = pyStrip raw

instance (paras : List (List Char)) (sz : Nat) (c : List Char) :
    Decidable (IsStrippedSentence paras sz c) := by
  unfold IsStrippedSentence
  infer_instance

/-- Invariant carried by a flushed chunk. -/
def GoodChunk (paras : List (List Char)) (sz : Nat) (c : List Char) : Prop :=
  c.length ≤ sz + 2 ∨ (IsStrippedSentence paras sz c ∧ sz < c.length)

/-- Invariant carried by the running buffer `current_chunk`. -/
def GoodCur (paras : List (List Char)) (sz : Nat) (cur : List Char) : Prop :=
  cur.length ≤ sz + 2 ∨
    (IsStrippedSentence paras sz cur ∧ sz < cur.length ∧ pyStrip cur = cur)

/-- Invariant of the whole chunker state. -/
def GoodState (paras : List (List Char)) (sz : Nat)
    (st : List (List Char) × List Char) : Prop :=
  (∀ c ∈ st.1, GoodChunk paras sz c) ∧ GoodCur paras sz st.2

/-! ## A stable descending sort

Python's `list.sort(key=..., reverse=True)` is a stable descending sort:
the output is the unique reordering that is weakly decreasing on the key and
keeps the original relative order of elements with equal keys.  The
insertion sort below has exactly those two properties, so it is
extensionally `list.sort(key=..., reverse=True)`. -/
/-- Insert `x` behind every element with a strictly larger key and ahead of
the first element whose key is `≤ key x` (stable descending insertion). -/
def insertDescBy {α β : Type} [LinearOrder β] (key : α → β) (x : α) :
    List α → List α
  | [] => [x]
  | y :: ys => if key x < key y then y :: insertDescBy key x ys else x :: y :: ys

/-- Stable descending insertion sort by `key`. -/
def sortDescBy {α β : Type} [LinearOrder β] (key : α → β) (l : List α) :
    List α :=
  l.foldr (insertDescBy key) []

/-! ## Retrieval data model (rag/core.py dataclasses, scoring-relevant part)

`Meta` embeds the slice of the chunk-metadata dictionary that the scoring
functions read: `document_source_type` (absent keys fall back to
`"manual"`), `security_frameworks`, `mitre_techniques` and `cves`. -/
structure Meta where
  document_source_type : Option String
  security_frameworks : List String
  mitre_techniques : List String
  cves : List String
deriving DecidableEq, Repr

/-- The per-chunk record stored in `EnhancedVectorDatabase.chunk_metadata`
(also standing in for the reconstructed `DocumentChunk`). -/
structure ChunkRec where
  chunk_id : String
  content : List Char
  source : String
  document_id : String
  chunk_index : Nat
  md : Meta
  created_at : ℚ
deriving DecidableEq, Repr

/-- `RetrievalResult` (rag/core.py lines 93-101). -/
structure RetrievalResult where
  chunk : ChunkRec
  similarity_score : ℚ
  authority_score : ℚ
  temporal_score : ℚ
  combined_score : ℚ
  rank : Nat
deriving DecidableEq, Repr

/-! ## Scoring (rag/vector_db.py lines 398-451, rag/elasticsearch_db.py
lines 439-491) -/
/-- Python's builtin `min` on two numbers (kernel-computable). -/
def pyMin (a b : ℚ) : ℚ := if a ≤ b then a else b

/-- Python's builtin `max` on two numbers (kernel-computable). -/
def pyMax (a b : ℚ) : ℚ := if b ≤ a then a else b

/-- `EnhancedVectorDatabase._calculate_authority_score`. -/
def calculate_authority_score (cm : ChunkRec) : ℚ :=
  let source_type := cm.md.document_source_type.getD "manual"
  let base : ℚ :=
    if source_type = "academic" then (9/10)
    else if source_type = "github" then (7/10)
    else if source_type = "cti" then (8/10)
    else if source_type = "blog" then (6/10)
    else if source_type = "manual" then (5/10)
    else (5/10)
  let s1 := base * (4/10)
  let s2 := s1 + (if "MITRE_ATTACK" ∈ cm.md.security_frameworks then ((3/10) : ℚ) else 0)
  let s3 := s2 + (if "NIST" ∈ cm.md.security_frameworks ∨
      "OWASP" ∈ cm.md.security_frameworks ∨
      "CIS" ∈ cm.md.security_frameworks then ((2/10) : ℚ) else 0)
  let s4 := s3 + (if cm.md.mitre_techniques ≠ [] then
    pyMin ((2/10) : ℚ) ((cm.md.mitre_techniques.length : ℚ) * (5/100)) else 0)
  let s5 := s4 + (if cm.md.cves ≠ [] then
    pyMin ((1/10) : ℚ) ((cm.md.cves.length : ℚ) * (2/100)) else 0)
  pyMin 1 s5

/-- The five temporal bands, as a function of the document age in days.
This is the common decay chain of both backends' temporal scorers. -/
def temporal_decay (age_days : ℚ) : ℚ :=
  if age_days ≤ 30 then 1
  else if age_days ≤ 90 then (8/10)
  else if age_days ≤ 365 then (6/10)
  else if age_days ≤ 730 then (4/10)
  else (2/10)

/-- `EnhancedVectorDatabase._calculate_temporal_score`: `created_at` is in
seconds; `now` embeds the `time.time()` call. -/
def calculate_temporal_score (created_at now : ℚ) : ℚ :=
  let age_days := (now - created_at) / (24 * 3600)
  if age_days ≤ 30 then 1
  else if age_days ≤ 90 then (8/10)
  else if age_days ≤ 365 then (6/10)
  else if age_days ≤ 730 then (4/10)
  else (2/10)

/-- `ElasticsearchVectorDatabase._calculate_temporal_score`: the stored
`created_at` is in milliseconds and is divided by 1000 first. -/
def es_calculate_temporal_score (created_at_ms now : ℚ) : ℚ :=
  let created_at := created_at_ms / 1000
  let age_days := (now - created_at) / (24 * 3600)
  if age_days ≤ 30 then 1
  else if age_days ≤ 90 then (8/10)
  else if age_days ≤ 365 then (6/10)
  else if age_days ≤ 730 then (4/10)
  else (2/10)

/-! ## `EnhancedVectorDatabase.search_similar_chunks` (rag/vector_db.py
lines 220-311)

The FAISS call `self.index.search(...)` is an external oracle; its reply —
the parallel `scores`/`indices` arrays — is the explicit `hits` input.
The optional metadata filter denotes the predicate that
`_matches_filter(chunk_metadata, filter_metadata)` computes; `none` embeds
`filter_metadata=None`. -/
/-- `if filter_metadata and not self._matches_filter(...)`: with no filter
every chunk passes. -/
def matchesOptFilter (filt : Option (ChunkRec → Bool)) (cm : ChunkRec) : Bool :=
  match filt with
  | none => true
  | some f => f cm

/-- The `for i, result in enumerate(results[:top_k]): result.rank = i + 1`
loop, starting from `n`. -/
def assign_ranks (n : Nat) : List RetrievalResult → List RetrievalResult
  | [] => []
  | r :: rs => { r with rank := n } :: assign_ranks (n + 1) rs

/-- The candidate-building loop of `search_similar_chunks`: skip invalid
FAISS indices, convert L2 distance to similarity, apply the similarity
threshold, look the index position up in `chunk_metadata`, apply the
metadata filter, and score. -/
def build_results (db : List (Int × ChunkRec)) (θ now : ℚ)
    (filt : Option (ChunkRec → Bool)) : List (ℚ × Int) → List RetrievalResult
  | [] => []
  | (score, idx) :: rest =>
    if idx = -1 then build_results db θ now filt rest
    else
      let similarity_score : ℚ := 1 - score / 2
      if similarity_score < θ then build_results db θ now filt rest
      else
        match db.lookup idx with
        | none => build_results db θ now filt rest
        | some cm =>
          if matchesOptFilter filt cm then
            { chunk := cm,
              similarity_score := similarity_score,
              authority_score := calculate_authority_score cm,
              temporal_score := calculate_temporal_score cm.created_at now,
              combined_score := similarity_score * (5/10) +
                calculate_authority_score cm * (3/10) +
                calculate_temporal_score cm.created_at now * (2/10),
              rank := 0 } :: build_results db θ now filt rest
          else build_results db θ now filt rest

/-- `EnhancedVectorDatabase.search_similar_chunks`: build candidates from
the FAISS hits, sort by combined score descending (Python's stable sort),
assign ranks 1.. to the first `top_k`, and return them. -/
def search_similar_chunks (db : List (Int × ChunkRec)) (hits : List (ℚ × Int))
    (top_k : Nat) (θ now : ℚ) (filt : Option (ChunkRec → Bool)) :
    List RetrievalResult :=
  assign_ranks 1
    ((sortDescBy (fun r => r.combined_score) (build_results db θ now filt hits)).take top_k)

/-! ## `EnhancedVectorDatabase._fallback_search` (rag/vector_db.py
lines 313-375) -/
/-- The per-chunk loop of `_fallback_search`: lexical word-overlap
similarity with a fixed 0.1 floor, and the `0.6/0.3/0.1` combination. -/
def fallback_build (query_words : List (List Char)) (filt : Option (ChunkRec → Bool))
    (now : ℚ) : List (Int × ChunkRec) → List RetrievalResult
  | [] => []
  | (_, cm) :: rest =>
    let content_words := (pyWords (pyLower cm.content)).dedup
    if query_words.length = 0 then fallback_build query_words filt now rest
    else
      let similarity_score : ℚ :=
        ((query_words.filter (fun w => w ∈ content_words)).length : ℚ) /
          (query_words.length : ℚ)
      if similarity_score < (1/10) then fallback_build query_words filt now rest
      else if matchesOptFilter filt cm then
        { chunk := cm,
          similarity_score := similarity_score,
          authority_score := calculate_authority_score cm,
          temporal_score := calculate_temporal_score cm.created_at now,
          combined_score := similarity_score * (6/10) +
            calculate_authority_score cm * (3/10) +
            calculate_temporal_score cm.created_at now * (1/10),
          rank := 0 } :: fallback_build query_words filt now rest
      else fallback_build query_words filt now rest

/-- `EnhancedVectorDatabase._fallback_search`: executed when FAISS is not
available; word-overlap scan over all stored chunks, then the same
sort/rank/truncate epilogue. -/
def fallback_search (db : List (Int × ChunkRec)) (query : List Char)
    (top_k : Nat) (filt : Option (ChunkRec → Bool)) (now : ℚ) :
    List RetrievalResult :=
  let query_words := (pyWords (pyLower query)).dedup
  assign_ranks 1
    ((sortDescBy (fun r => r.combined_score) (fallback_build query_words filt now db)).take top_k)

/-! ## `ElasticsearchVectorDatabase` (rag/elasticsearch_db.py)

The Elasticsearch server is an oracle.  `available = false` embeds
`self.es is None` (client missing or connection failed); the reply of
`self.es.search(...)` — or the exception it raised — is the explicit
`Except`-valued input of the search wrapper, and the outcome of the `bulk`
call is the explicit `backendOk` input of `add_document`. -/
/-- One chunk document as stored in the Elasticsearch index
(`doc_body` of `add_document`, scoring-relevant fields). -/
structure EsRec where
  chunk_id : String
  content : List Char
  source : String
  document_id : String
  document_title : String
  chunk_index : Nat
  created_at_ms : ℚ
  source_type : String
  authority_score : ℚ
  mitre_techniques : List String
  security_frameworks : List String
  cves : List String
  md : Meta
deriving DecidableEq, Repr

/-- One hit of the Elasticsearch reply: `hit["_score"]` and
`hit["_source"]`. -/
structure EsHit where
  score : ℚ
  src : EsRec
deriving DecidableEq, Repr

/-- State of `ElasticsearchVectorDatabase`: whether `self.es` is set, and
the index contents keyed by `_id` (which `add_document` sets to the chunk
id), in creation order. -/
structure EsState where
  available : Bool
  index : List (String × EsRec)
deriving DecidableEq, Repr

/-- `ElasticsearchVectorDatabase._calculate_authority_score`: identical
chain to the local variant, except that it starts from the stored
`authority_score` instead of zero. -/
def es_calculate_authority_score (src : EsRec) : ℚ :=
  let base : ℚ :=
    if src.source_type = "academic" then (9/10)
    else if src.source_type = "github" then (7/10)
    else if src.source_type = "cti" then (8/10)
    else if src.source_type = "blog" then (6/10)
    else if src.source_type = "manual" then (5/10)
    else (5/10)
  let s1 := src.authority_score + base * (4/10)
  let s2 := s1 + (if "MITRE_ATTACK" ∈ src.security_frameworks then ((3/10) : ℚ) else 0)
  let s3 := s2 + (if "NIST" ∈ src.security_frameworks ∨
      "OWASP" ∈ src.security_frameworks ∨
      "CIS" ∈ src.security_frameworks then ((2/10) : ℚ) else 0)
  let s4 := s3 + (if src.mitre_techniques ≠ [] then
    pyMin ((2/10) : ℚ) ((src.mitre_techniques.length : ℚ) * (5/100)) else 0)
  let s5 := s4 + (if src.cves ≠ [] then
    pyMin ((1/10) : ℚ) ((src.cves.length : ℚ) * (2/100)) else 0)
  pyMin 1 s5

/-- The hit-processing loop of
`ElasticsearchVectorDatabase.search_similar_chunks`: undo the
`script_score` offset (`max(0.0, _score - 1.0)`), apply the similarity
threshold, and score with the `0.5/0.3/0.2` combination. -/
def es_build (θ now : ℚ) : List EsHit → List RetrievalResult
  | [] => []
  | hit :: rest =>
    let similarity_score : ℚ := pyMax 0 (hit.score - 1)
    if similarity_score < θ then es_build θ now rest
    else
      { chunk :=
          { chunk_id := hit.src.chunk_id,
            content := hit.src.content,
            source := hit.src.source,
            document_id := hit.src.document_id,
            chunk_index := hit.src.chunk_index,
            md := hit.src.md,
            created_at := hit.src.created_at_ms / 1000 },
        similarity_score := similarity_score,
        authority_score := es_calculate_authority_score hit.src,
        temporal_score := es_calculate_temporal_score hit.src.created_at_ms now,
        combined_score := similarity_score * (5/10) +
          es_calculate_authority_score hit.src * (3/10) +
          es_calculate_temporal_score hit.src.created_at_ms now * (2/10),
        rank := 0 } :: es_build θ now rest

/-- `ElasticsearchVectorDatabase.search_similar_chunks`: empty result when
the client is unavailable, empty result when the backend call raised
(caught by the surrounding `try/except`), otherwise process hits, sort by
combined score, rank and truncate. -/
def es_search_similar_chunks (st : EsState) (resp : Except String (List EsHit))
    (top_k : Nat) (θ now : ℚ) : List RetrievalResult :=
  if st.available then
    match resp with
    | .error _ => []
    | .ok hits =>
      assign_ranks 1
        ((sortDescBy (fun r => r.combined_score) (es_build θ now hits)).take top_k)
  else []

/-! ## Concrete fixtures for the search claims -/
def metaAcademic : Meta := ⟨some "academic", [], [], []⟩

def metaManual : Meta := ⟨some "manual", [], [], []⟩

def metaNone : Meta := ⟨none, [], [], []⟩

def chunkA : ChunkRec := ⟨"A", "alpha".data, "srcA", "docA", 0, metaAcademic, 0⟩

def chunkB : ChunkRec := ⟨"B", "beta".data, "srcB", "docB", 0, metaManual, 0⟩

/-- A two-chunk `chunk_metadata` store. -/
def dbAB : List (Int × ChunkRec) := [(0, chunkA), (1, chunkB)]

/-- FAISS hits chosen so that both candidates clear the 0.7 threshold and
get exactly the same combined score (A: sim 0.8, authority 0.36, temporal 1;
B: sim 0.896, authority 0.2, temporal 1; both combine to 0.708), while A has
the strictly smaller similarity and is first in the hit order. -/
def hitsAB : List (ℚ × Int) := [((4/10), 0), ((208/1000), 1)]

def chunkHello : ChunkRec := ⟨"H", "hello".data, "srcH", "docH", 0, metaNone, 0⟩

def dbHello : List (Int × ChunkRec) := [(0, chunkHello)]

/-- A clock reading 800 days after `chunkHello.created_at`. -/
def nowOld : ℚ := 800 * 86400

/-! ## Claim C3: ranking order and tie-breaking -/
/-- The total order claimed by the specification: descending combined
score, ties broken by descending similarity, then by chunk id. -/
def spec_rank_order (r s : RetrievalResult) : Prop :=
  s.combined_score < r.combined_score ∨
    (s.combined_score = r.combined_score ∧
      s.similarity_score < r.similarity_score) ∨
    (s.combined_score = r.combined_score ∧
      s.similarity_score = r.similarity_score ∧
      r.chunk.chunk_id ≤ s.chunk.chunk_id)

instance (r s : RetrievalResult) : Decidable (spec_rank_order r s) := by
  unfold spec_rank_order
  infer_instance

/-! ## `ContextOptimizer.compress_context` (rag/integration.py lines 236-279) -/
/-- The `security_keywords` list used to score paragraphs. -/
def security_keywords : List (List Char) :=
  ["mitre".data, "attack".data, "technique".data, "detection".data,
    "exploit".data, "vulnerability".data]

/-- `sum(1 for keyword in security_keywords if keyword.lower() in
section.lower())`. -/
def sectionScore (s : List Char) : Nat :=
  (security_keywords.filter (fun k => containsSub (pyLower k) (pyLower s))).length

/-- The selection loop of `compress_context`: keep whole sections while they
fit the remaining budget; at the first overflow, append the truncated
section with an `"..."` marker only if strictly more than 100 budget
characters remain, then stop (`break`). -/
def takeFit (target : Nat) (cur : Nat) : List (Nat × List Char) → List (List Char)
  | [] => []
  | (_, s) :: rest =>
    if cur + s.length ≤ target then s :: takeFit target (cur + s.length) rest
    else if 100 < target - cur then [s.take (target - cur) ++ "...".data]
    else []

/-- `ContextOptimizer.compress_context(context, target_length)`: return the
context unchanged when it already fits; otherwise split into sections on
blank lines, sort by keyword score (stable descending), greedily keep
sections, and re-join with `"\n\n"`.  The running length counts only the
sections' own characters, not the joining separators. -/
def compress_context (context : List Char) (target_length : Nat) : List Char :=
  if context.length ≤ target_length then context
  else
    let sections := splitOnNN context
    let scored_sections := sections.map (fun s => (sectionScore s, s))
    joinSep ('\n' :: '\n' :: [])
      (takeFit target_length 0 (sortDescBy (fun p => p.1) scored_sections))

/-! ## `EnhancedEmbeddingManager` (rag/core.py lines 104-213)

The sentence-transformer model is an oracle `modelFn` (with `none` embedding
`SENTENCE_TRANSFORMERS_AVAILABLE = False` / `self.model = None`); the numpy
random generator is an oracle stream `rng` with a cursor `rngPos`, advanced
by one per `np.random.random(...)` call; `get_text_hash` is the abstract
`hashFn` parameter (SHA-256 prefix in the source). -/
structure EmbedState where
  modelFn : Option (String → List ℚ)
  cache : String → Option (List ℚ)
  rng : Nat → List ℚ
  rngPos : Nat

/-- `EnhancedEmbeddingManager.embed_text(text, use_cache)`: a fresh random
vector when the model is missing; otherwise return the cached vector on a
cache hit, else invoke the model and (when `use_cache`) store the result. -/
def embed_text (hashFn : String → String) (st : EmbedState) (text : String)
    (use_cache : Bool) : List ℚ × EmbedState :=
  match st.modelFn with
  | none => (st.rng st.rngPos, { st with rngPos := st.rngPos + 1 })
  | some m =>
    let text_hash := hashFn text
    if use_cache then
      match st.cache text_hash with
      | some v => (v, st)
      | none =>
        let embedding := m text
        (embedding,
          { st with cache :=
              fun k => if k = text_hash then some embedding else st.cache k })
    else (m text, st)

/-- The `for i in range(0, len(texts), batch_size)` loop of `embed_batch`:
encode each slice of `batch_size` texts and concatenate.  The `fuel`
argument bounds the iteration count (the Python loop runs at most
`len(texts)` times for any `batch_size ≥ 1`); it keeps the recursion
structural. -/
def batchLoop (m : String → List ℚ) (batch_size : Nat) :
    Nat → List String → List (List ℚ)
  | _, [] => []
  | 0, _ :: _ => []
  | fuel + 1, t :: rest =>
    ((t :: rest).take batch_size).map m ++
      batchLoop m batch_size fuel (rest.drop (batch_size - 1))

/-- `EnhancedEmbeddingManager.embed_batch(texts, batch_size)`: one random
vector per text when the model is missing (consuming the random stream);
otherwise encode in batches.  The cache is neither read nor written. -/
def embed_batch (st : EmbedState) (texts : List String) (batch_size : Nat) :
    List (List ℚ) × EmbedState :=
  match st.modelFn with
  | none =>
    ((List.range texts.length).map (fun i => st.rng (st.rngPos + i)),
      { st with rngPos := st.rngPos + texts.length })
  | some m => (batchLoop m batch_size texts.length texts, st)

/-! ## Claim C7: determinism of `embed_text` -/
/-- Degraded-mode state: no model, empty cache, a concrete entropy stream
whose n-th draw is the vector `[n]`. -/
def stNoModel : EmbedState :=
  { modelFn := none, cache := fun _ => none,
    rng := fun n => [(n : ℚ)], rngPos := 0 }

/-- A state whose cache entry for `"a"` agrees with the model output. -/
def stConsistent : EmbedState :=
  { modelFn := some (fun _ => [(5 : ℚ)]),
    cache := fun k => if k = "a" then some [(5 : ℚ)] else none,
    rng := fun _ => [], rngPos := 0 }

/-- A state whose cache entry for `"a"` is stale: it disagrees with the
model's current output. -/
def stStale : EmbedState :=
  { modelFn := some (fun _ => [(0 : ℚ)]),
    cache := fun k => if k = "a" then some [(9 : ℚ)] else none,
    rng := fun _ => [], rngPos := 0 }

/-! ## Documents, chunk creation, and the two index write paths
(rag/core.py `create_chunks`, rag/vector_db.py `add_document` /
`add_chunk_to_index`, rag/elasticsearch_db.py `add_document` /
`delete_document`) -/
/-- `Document` (rag/core.py lines 73-90), scoring-relevant fields. -/
structure Document where
  id : String
  title : String
  content : List Char
  source : String
  source_type : String
  md : Meta
  authority_score : ℚ
  created_at : ℚ
  last_updated : ℚ
deriving DecidableEq, Repr

/-- Python `f"{i:04d}"`: decimal representation zero-padded to width 4. -/
def pad4 (i : Nat) : String :=
  ⟨List.replicate (4 - (Nat.repr i).length) '0' ++ (Nat.repr i).data⟩

/-- `DocumentProcessor.create_chunks(document)`: chunk the content with
`smart_chunk_text`, give each chunk the id `{document.id}_chunk_{i:04d}`,
and inherit the document metadata (plus `document_source_type`).  `now`
embeds the `time.time()` default of `DocumentChunk.created_at`. -/
def create_chunks (d : Document) (chunk_size : Nat) (now : ℚ) :
    List ChunkRec :=
  (smart_chunk_text d.content chunk_size).enum.map (fun p =>
    { chunk_id := d.id ++ "_chunk_" ++ pad4 p.1,
      content := p.2,
      source := d.source,
      document_id := d.id,
      chunk_index := p.1,
      md := { d.md with document_source_type := some d.source_type },
      created_at := now })

/-- Python dict assignment `dict[k] = v`: overwrite in place if the key is
present, else append. -/
def dictSet {κ β : Type} [DecidableEq κ] : List (κ × β) → κ → β → List (κ × β)
  | [], k, v => [(k, v)]
  | (k', v') :: rest, k, v =>
    if k' = k then (k', v) :: rest else (k', v') :: dictSet rest k v

/-- The entry stored in `EnhancedVectorDatabase.document_registry`. -/
structure DocInfo where
  title : String
  source : String
  source_type : String
  authority_score : ℚ
  created_at : ℚ
  last_updated : ℚ
  md : Meta
deriving DecidableEq, Repr

def docInfo (d : Document) : DocInfo :=
  ⟨d.title, d.source, d.source_type, d.authority_score, d.created_at,
    d.last_updated, d.md⟩

/-- State of `EnhancedVectorDatabase`: `chunk_metadata` keyed by the string
of the running `next_index` position, and the document registry.  (The FAISS
index object itself is external; `add_chunk_to_index` always succeeds on the
metadata store.) -/
structure VState where
  chunk_metadata : List (Int × ChunkRec)
  document_registry : List (String × DocInfo)
  next_index : Int
deriving DecidableEq, Repr

/-- `EnhancedVectorDatabase.add_chunk_to_index`: store the chunk record
under the fresh `next_index` key and advance `next_index`.  Note: it never
deletes or replaces chunks of a previously ingested document. -/
def add_chunk_to_index (st : VState) (c : ChunkRec) : Bool × VState :=
  (true,
    { st with
        chunk_metadata := dictSet st.chunk_metadata st.next_index c,
        next_index := st.next_index + 1 })

/-- `EnhancedVectorDatabase.add_document`: register the document
(overwriting any previous registry entry for the same id), create chunks,
and append every chunk to the index. -/
def v_add_document (st : VState) (d : Document) (chunk_size : Nat) (now : ℚ) :
    Nat × VState :=
  let st1 := { st with
    document_registry := dictSet st.document_registry d.id (docInfo d) }
  let chunks := create_chunks d chunk_size now
  if chunks = [] then (0, st1)
  else
    chunks.foldl (fun acc c =>
      let r := add_chunk_to_index acc.2 c
      (acc.1 + (if r.1 then 1 else 0), r.2)) (0, st1)

/-- `EnhancedVectorDatabase.get_chunk_count`. -/
def get_chunk_count (st : VState) : Nat := st.chunk_metadata.length

/-- The `doc_body` built by `ElasticsearchVectorDatabase.add_document` for
one chunk (`created_at` is stored in milliseconds). -/
def es_doc_body (d : Document) (c : ChunkRec) (now : ℚ) : EsRec :=
  { chunk_id := c.chunk_id,
    content := c.content,
    source := c.source,
    document_id := c.document_id,
    document_title := d.title,
    chunk_index := c.chunk_index,
    created_at_ms := now * 1000,
    source_type := d.source_type,
    authority_score := d.authority_score,
    mitre_techniques := c.md.mitre_techniques,
    security_frameworks := c.md.security_frameworks,
    cves := c.md.cves,
    md := c.md }

/-- One step of the `bulk` indexing of `add_document`: Elasticsearch
upserts by `_id`, which the code sets to the chunk id. -/
def es_index_step (d : Document) (now : ℚ) (idx : List (String × EsRec))
    (c : ChunkRec) : List (String × EsRec) :=
  dictSet idx c.chunk_id (es_doc_body d c now)

/-- `ElasticsearchVectorDatabase.add_document`: 0 chunks when the client is
unavailable, when no chunks were created, or when the `bulk` call raised
(`backendOk = false`); otherwise upsert every chunk document by its id and
report the indexed count. -/
def es_add_document (st : EsState) (d : Document) (chunk_size : Nat)
    (now : ℚ) (backendOk : Bool) : Nat × EsState :=
  if st.available then
    let chunks := create_chunks d chunk_size now
    if chunks = [] then (0, st)
    else if backendOk then
      (chunks.length,
        { st with index := chunks.foldl (es_index_step d now) st.index })
    else (0, st)
  else (0, st)

/-- `ElasticsearchVectorDatabase.delete_document`: delete-by-query on
`document_id`; `False` when unavailable or when the call raised. -/
def es_delete_document (st : EsState) (docId : String) (backendOk : Bool) :
    Bool × EsState :=
  if st.available then
    if backendOk then
      (true,
        { st with index := st.index.filter (fun p => p.2.document_id ≠ docId) })
    else (false, st)
  else (false, st)

def es_chunk_count (st : EsState) : Nat := st.index.length

/-- The concrete one-paragraph document used by the ingestion claims. -/
def docD : Document := ⟨"D", "t", "hello".data, "s", "manual", metaNone, 0, 0, 0⟩

def vEmpty : VState := ⟨[], [], 0⟩

def esDown : EsState := ⟨false, []⟩

example : smart_chunk_text "hello".data 1024 = ["hello".data] := by decide

example : smart_chunk_text "a.b\n\nc.d".data 6 = ["a.b\n\nc.d".data] := by decide

/-! ## Claim C1: chunk-length bound for `smart_chunk_text` -/
theorem pyStrip_eq_rdropWhile (l : List Char) :
    pyStrip l = List.rdropWhile isPySpace (List.dropWhile isPySpace l) := rfl

theorem pyStrip_length_le (l : List Char) : (pyStrip l).length ≤ l.length := by
  rw [pyStrip_eq_rdropWhile]
  calc (List.rdropWhile isPySpace (List.dropWhile isPySpace l)).length
      ≤ (List.dropWhile isPySpace l).length :=
        (List.rdropWhile_prefix _ _).length_le
    _ ≤ l.length := (List.dropWhile_suffix _).length_le

theorem dropWhile_rdropWhile_dropWhile (p : Char → Bool) (l : List Char) :
    List.dropWhile p (List.rdropWhile p (List.dropWhile p l)) =
      List.rdropWhile p (List.dropWhile p l) := by
  rw [List.dropWhile_eq_self_iff]
  intro hl
  obtain ⟨t, ht⟩ := List.rdropWhile_prefix p (List.dropWhile p l)
  have hdrop : 0 < (List.dropWhile p l).length := by
    rw [← ht, List.length_append]
    omega
  have hz := List.dropWhile_get_zero_not p l hdrop
  simp only [List.get_eq_getElem] at hz ⊢
  have h0 : (List.dropWhile p l)[0]? =
      (List.rdropWhile p (List.dropWhile p l))[0]? := by
    conv_lhs => rw [← ht]
    rw [List.getElem?_append, if_pos hl]
  rw [List.getElem?_eq_getElem hdrop, List.getElem?_eq_getElem hl] at h0
  rwa [Option.some.inj h0] at hz

theorem pyStrip_idem (l : List Char) : pyStrip (pyStrip l) = pyStrip l := by
  rw [pyStrip_eq_rdropWhile, pyStrip_eq_rdropWhile,
    dropWhile_rdropWhile_dropWhile, List.rdropWhile_idempotent]

theorem goodChunk_of_goodCur {paras : List (List Char)} {sz : Nat}
    {cur : List Char} (h : GoodCur paras sz cur) :
    GoodChunk paras sz (pyStrip cur) := by
  rcases h with h | ⟨hs, hlen, hstrip⟩
  · exact Or.inl (le_trans (pyStrip_length_le cur) h)
  · rw [hstrip]
    exact Or.inr ⟨hs, hlen⟩

theorem goodState_flush {paras : List (List Char)} {sz : Nat}
    {st : List (List Char) × List Char} (h : GoodState paras sz st)
    {c : List Char}
    (hc : c ∈ st.1 ++ (if st.2 ≠ [] then [pyStrip st.2] else [])) :
    GoodChunk paras sz c := by
  rcases List.mem_append.mp hc with hmem | hmem
  · exact h.1 c hmem
  · split at hmem
    · rcases List.mem_singleton.mp hmem with rfl
      exact goodChunk_of_goodCur h.2
    · simp at hmem

theorem stepSentence_good {paras : List (List Char)} {sz : Nat}
    {p raw : List Char} (hp : p ∈ paras) (hpl : sz < p.length)
    (hraw : raw ∈ splitSeps p)
    {st : List (List Char) × List Char} (h : GoodState paras sz st) :
    GoodState paras sz (stepSentence sz st raw) := by
  unfold stepSentence
  by_cases hnil : pyStrip raw = []
  · simpa [hnil] using h
  · simp only [hnil, if_false]
    by_cases hover : st.2.length + (pyStrip raw).length > sz
    · simp only [hover, if_true]
      refine ⟨fun c hc => goodState_flush h hc, ?_⟩
      show GoodCur paras sz (pyStrip raw)
      by_cases hsmall : (pyStrip raw).length ≤ sz + 2
      · exact Or.inl hsmall
      · refine Or.inr ⟨⟨p, hp, hpl, raw, hraw, rfl⟩, by omega, pyStrip_idem raw⟩
    · simp only [hover, if_false]
      refine ⟨h.1, Or.inl ?_⟩
      show (if st.2 = [] then pyStrip raw else st.2 ++ ' ' :: pyStrip raw).length ≤ sz + 2
      by_cases hcur : st.2 = []
      · simp only [hcur, if_true, List.length_nil]
        omega
      · simp only [hcur, if_false, List.length_append, List.length_cons]
        omega

theorem foldl_stepSentence_good {paras : List (List Char)} {sz : Nat}
    {p : List Char} (hp : p ∈ paras) (hpl : sz < p.length) :
    ∀ (rs : List (List Char)), (∀ r ∈ rs, r ∈ splitSeps p) →
      ∀ {st : List (List Char) × List Char}, GoodState paras sz st →
        GoodState paras sz (rs.foldl (stepSentence sz) st)
  | [], _, _, h => h
  | r :: rs, hrs, _, h => by
    simp only [List.foldl_cons]
    exact foldl_stepSentence_good hp hpl rs
      (fun x hx => hrs x (List.mem_cons_of_mem r hx))
      (stepSentence_good hp hpl (hrs r (List.mem_cons_self r rs)) h)

theorem stepParagraph_good {paras : List (List Char)} {sz : Nat}
    {p : List Char} (hp : p ∈ paras)
    {st : List (List Char) × List Char} (h : GoodState paras sz st) :
    GoodState paras sz (stepParagraph sz st p) := by
  unfold stepParagraph
  by_cases hlong : p.length > sz
  · simp only [hlong, if_true]
    exact foldl_stepSentence_good hp hlong (splitSeps p) (fun r hr => hr) h
  · simp only [hlong, if_false]
    by_cases hover : st.2.length + p.length > sz
    · simp only [hover, if_true]
      refine ⟨fun c hc => goodState_flush h hc, ?_⟩
      show GoodCur paras sz p
      exact Or.inl (by omega)
    · simp only [hover, if_false]
      refine ⟨h.1, Or.inl ?_⟩
      show (if st.2 = [] then p else st.2 ++ '\n' :: '\n' :: p).length ≤ sz + 2
      by_cases hcur : st.2 = []
      · simp only [hcur, if_true]
        omega
      · simp only [hcur, if_false, List.length_append, List.length_cons]
        omega

theorem foldl_stepParagraph_good {paras : List (List Char)} {sz : Nat} :
    ∀ (ps : List (List Char)), (∀ q ∈ ps, q ∈ paras) →
      ∀ {st : List (List Char) × List Char}, GoodState paras sz st →
        GoodState paras sz (ps.foldl (stepParagraph sz) st)
  | [], _, _, h => h
  | q :: ps, hps, _, h => by
    simp only [List.foldl_cons]
    exact foldl_stepParagraph_good ps
      (fun x hx => hps x (List.mem_cons_of_mem q hx))
      (stepParagraph_good (hps q (List.mem_cons_self q ps)) h)

/-- Claim C1, amended:  Every chunk returned by `smart_chunk_text(content,
max_size)` has length at most `max_size + 2` — the greedy packing check
`len(current_chunk) + len(unit) > chunk_size` ignores the one-character
(`" "`) or two-character (`"\n\n"`) separator that joining appends — except
when the chunk is a single stripped sentence of an oversized paragraph whose
own length exceeds `max_size`. -/
theorem smart_chunk_text_length_bound (content : List Char) (sz : Nat) :
    ∀ c ∈ smart_chunk_text content sz,
      c.length ≤ sz + 2 ∨
        (IsStrippedSentence (splitOnNN content) sz c ∧ sz < c.length) := by
  intro c hc
  unfold smart_chunk_text at hc
  have hinit : GoodState (splitOnNN content) sz ([], []) :=
    ⟨fun c hc => absurd hc (List.not_mem_nil c), Or.inl (by simp)⟩
  have hfold : GoodState (splitOnNN content) sz
      ((splitOnNN content).foldl (stepParagraph sz) ([], [])) :=
    foldl_stepParagraph_good (splitOnNN content) (fun q hq => hq) hinit
  exact goodState_flush hfold (List.mem_of_mem_filter hc)

/-- Witness for `smart_chunk_text_length_bound` at a concrete input. -/
theorem smart_chunk_text_length_bound_witness :
    "hi".data ∈ smart_chunk_text "hi".data 10 ∧
      ("hi".data.length ≤ 10 + 2 ∨
        (IsStrippedSentence (splitOnNN "hi".data) 10 "hi".data ∧
          10 < "hi".data.length)) :=
  ⟨by decide, smart_chunk_text_length_bound "hi".data 10 "hi".data (by decide)⟩

/-- Claim C1, counterexample:  With `content = "a.b\n\nc.d"` and `max_size = 6`
the code returns the single chunk `"a.b\n\nc.d"` of length 8 > 6, and that
chunk is not a single overlong sentence (it splits into three nonempty
sentences, and no stripped sentence of the input equals it): the packing
check does not count the `"\n\n"` separator it appends, so the claimed bound
`max_size` fails. -/
theorem smart_chunk_text_cex :
    smart_chunk_text "a.b\n\nc.d".data 6 = ["a.b\n\nc.d".data] ∧
      ("a.b\n\nc.d".data).length = 8 ∧
      ¬ (∀ c ∈ smart_chunk_text "a.b\n\nc.d".data 6,
          c.length ≤ 6 ∨
            (IsStrippedSentence (splitOnNN "a.b\n\nc.d".data) 6 c ∧
              6 < c.length)) ∧
      (((splitSeps "a.b\n\nc.d".data).map pyStrip).filter (· ≠ [])).length = 3 := by
  refine ⟨by decide, by decide, ?_, by decide⟩
  intro hall
  have := hall "a.b\n\nc.d".data (by decide)
  revert this
  decide

theorem mem_insertDescBy {α β : Type} [LinearOrder β] (key : α → β)
    (x a : α) (l : List α) :
    a ∈ insertDescBy key x l ↔ a = x ∨ a ∈ l := by
  induction l with
  | nil => simp [insertDescBy]
  | cons y ys ih =>
    unfold insertDescBy
    split
    · simp only [List.mem_cons, ih]
      tauto
    · simp only [List.mem_cons]

theorem insertDescBy_perm {α β : Type} [LinearOrder β] (key : α → β)
    (x : α) (l : List α) : List.Perm (insertDescBy key x l) (x :: l) := by
  induction l with
  | nil => rfl
  | cons y ys ih =>
    unfold insertDescBy
    split
    · exact List.Perm.trans (List.Perm.cons y ih) (List.Perm.swap x y ys)
    · rfl

theorem sortDescBy_perm {α β : Type} [LinearOrder β] (key : α → β)
    (l : List α) : List.Perm (sortDescBy key l) l := by
  induction l with
  | nil => rfl
  | cons x xs ih =>
    exact List.Perm.trans (insertDescBy_perm key x (sortDescBy key xs))
      (List.Perm.cons x ih)

theorem sorted_insertDescBy {α β : Type} [LinearOrder β] (key : α → β)
    (x : α) {l : List α} (h : List.Sorted (fun a b => key b ≤ key a) l) :
    List.Sorted (fun a b => key b ≤ key a) (insertDescBy key x l) := by
  induction l with
  | nil => simp [insertDescBy]
  | cons y ys ih =>
    unfold insertDescBy
    split
    · rename_i hlt
      rw [List.sorted_cons] at h ⊢
      refine ⟨fun b hb => ?_, ih h.2⟩
      rcases (mem_insertDescBy key x b ys).mp hb with rfl | hb
      · exact le_of_lt hlt
      · exact h.1 b hb
    · rename_i hge
      rw [List.sorted_cons]
      refine ⟨fun b hb => ?_, h⟩
      rcases List.mem_cons.mp hb with rfl | hb
      · exact le_of_not_lt hge
      · rw [List.sorted_cons] at h
        exact le_trans (h.1 b hb) (le_of_not_lt hge)

theorem sorted_sortDescBy {α β : Type} [LinearOrder β] (key : α → β)
    (l : List α) :
    List.Sorted (fun a b => key b ≤ key a) (sortDescBy key l) := by
  induction l with
  | nil => simp [sortDescBy]
  | cons x xs ih => exact sorted_insertDescBy key x ih

theorem filter_insertDescBy {α β : Type} [LinearOrder β] (key : α → β)
    (q : β) (x : α) (l : List α) :
    (insertDescBy key x l).filter (fun a => key a = q) =
      (x :: l).filter (fun a => key a = q) := by
  induction l with
  | nil => rfl
  | cons y ys ih =>
    unfold insertDescBy
    split
    · rename_i hlt
      by_cases hy : key y = q
      · have hx : ¬ (key x = q) := by
          intro hx
          rw [hx, hy] at hlt
          exact lt_irrefl q hlt
        simp [List.filter_cons, hy, hx, ih]
      · by_cases hx : key x = q <;> simp [List.filter_cons, hy, hx, ih]
    · rfl

/-- Stability of `sortDescBy`: elements with any fixed key keep their
original relative order. -/
theorem filter_sortDescBy {α β : Type} [LinearOrder β] (key : α → β)
    (q : β) (l : List α) :
    (sortDescBy key l).filter (fun a => key a = q) =
      l.filter (fun a => key a = q) := by
  induction l with
  | nil => rfl
  | cons x xs ih =>
    have hstep : sortDescBy key (x :: xs) = insertDescBy key x (sortDescBy key xs) := rfl
    rw [hstep, filter_insertDescBy key q x (sortDescBy key xs)]
    by_cases hx : key x = q <;> simp [List.filter_cons, hx, ih]

/-! ## Claim C6: the temporal score is a deterministic five-band step
function of document age -/
/-- Claim C6, confirmed:  In both backends the temporal score is the pure
step function `temporal_decay` of the document age in days: full score 1
up to 30 days, then 0.8 up to 90, 0.6 up to 365, 0.4 up to 730, and the
constant floor 0.2 beyond 730 days; all values lie in `[0, 1]` and the
function is non-increasing in age.  No randomness is involved: the score
is a function of `created_at` and the clock reading alone. -/
theorem temporal_score_step_function :
    (∀ c now, calculate_temporal_score c now =
      temporal_decay ((now - c) / (24 * 3600))) ∧
    (∀ c now, es_calculate_temporal_score c now =
      temporal_decay ((now - c / 1000) / (24 * 3600))) ∧
    (∀ a, 0 ≤ temporal_decay a ∧ temporal_decay a ≤ 1) ∧
    (∀ a, a ≤ 30 → temporal_decay a = 1) ∧
    (∀ a, 30 < a → a ≤ 90 → temporal_decay a = (8/10)) ∧
    (∀ a, 90 < a → a ≤ 365 → temporal_decay a = (6/10)) ∧
    (∀ a, 365 < a → a ≤ 730 → temporal_decay a = (4/10)) ∧
    (∀ a, 730 < a → temporal_decay a = (2/10)) ∧
    (∀ a b, a ≤ b → temporal_decay b ≤ temporal_decay a) := by
  refine ⟨fun c now => rfl, fun c now => rfl, ?_, ?_, ?_, ?_, ?_, ?_, ?_⟩
  · intro a
    unfold temporal_decay
    split_ifs <;> norm_num
  · intro a h
    unfold temporal_decay
    rw [if_pos h]
  · intro a h1 h2
    unfold temporal_decay
    rw [if_neg (by linarith), if_pos h2]
  · intro a h1 h2
    unfold temporal_decay
    rw [if_neg (by linarith), if_neg (by linarith), if_pos h2]
  · intro a h1 h2
    unfold temporal_decay
    rw [if_neg (by linarith), if_neg (by linarith), if_neg (by linarith),
      if_pos h2]
  · intro a h
    unfold temporal_decay
    rw [if_neg (by linarith), if_neg (by linarith), if_neg (by linarith),
      if_neg (by linarith)]
  · intro a b hab
    unfold temporal_decay
    split_ifs <;> linarith

/-- Witness for `temporal_score_step_function` at concrete ages, one per
band, plus one monotonicity instance. -/
theorem temporal_score_step_function_witness :
    calculate_temporal_score 0 0 = temporal_decay 0 ∧
      temporal_decay 10 = 1 ∧ temporal_decay 40 = (8/10) ∧
      temporal_decay 100 = (6/10) ∧ temporal_decay 400 = (4/10) ∧
      temporal_decay 800 = (2/10) ∧ temporal_decay 40 ≤ temporal_decay 10 ∧
      (0 ≤ temporal_decay 800 ∧ temporal_decay 800 ≤ 1) :=
  ⟨by simpa using temporal_score_step_function.1 0 0,
    temporal_score_step_function.2.2.2.1 10 (by norm_num),
    temporal_score_step_function.2.2.2.2.1 40 (by norm_num) (by norm_num),
    temporal_score_step_function.2.2.2.2.2.1 100 (by norm_num) (by norm_num),
    temporal_score_step_function.2.2.2.2.2.2.1 400 (by norm_num) (by norm_num),
    temporal_score_step_function.2.2.2.2.2.2.2.1 800 (by norm_num),
    temporal_score_step_function.2.2.2.2.2.2.2.2 10 40 (by norm_num),
    temporal_score_step_function.2.2.1 800⟩

/-! ## Pipeline lemmas shared by the search claims -/
theorem assign_ranks_length (n : Nat) (l : List RetrievalResult) :
    (assign_ranks n l).length = l.length := by
  induction l generalizing n with
  | nil => rfl
  | cons r rs ih => simp [assign_ranks, ih]

theorem assign_ranks_map_rank (n : Nat) (l : List RetrievalResult) :
    (assign_ranks n l).map (fun r => r.rank) = List.range' n l.length := by
  induction l generalizing n with
  | nil => rfl
  | cons r rs ih => simp [assign_ranks, ih, List.range'_succ]

theorem assign_ranks_mem {n : Nat} {l : List RetrievalResult}
    {r : RetrievalResult} (h : r ∈ assign_ranks n l) :
    ∃ r' ∈ l, r.chunk = r'.chunk ∧
      r.similarity_score = r'.similarity_score ∧
      r.authority_score = r'.authority_score ∧
      r.temporal_score = r'.temporal_score ∧
      r.combined_score = r'.combined_score := by
  induction l generalizing n with
  | nil => exact absurd h (List.not_mem_nil r)
  | cons r0 rs ih =>
    rcases List.mem_cons.mp h with rfl | h
    · exact ⟨r0, List.mem_cons_self r0 rs, rfl, rfl, rfl, rfl, rfl⟩
    · obtain ⟨r', hr', hfields⟩ := ih h
      exact ⟨r', List.mem_cons_of_mem r0 hr', hfields⟩

theorem sorted_assign_ranks (n : Nat) {l : List RetrievalResult}
    (h : l.Sorted (fun a b => b.combined_score ≤ a.combined_score)) :
    (assign_ranks n l).Sorted (fun a b => b.combined_score ≤ a.combined_score) := by
  induction l generalizing n with
  | nil => exact List.sorted_nil
  | cons r rs ih =>
    rw [List.sorted_cons] at h
    show List.Sorted _ ({ r with rank := n } :: assign_ranks (n + 1) rs)
    rw [List.sorted_cons]
    refine ⟨fun b hb => ?_, ih (n + 1) h.2⟩
    obtain ⟨b', hb', _, _, _, _, hcb⟩ := assign_ranks_mem hb
    rw [hcb]
    exact h.1 b' hb'

theorem build_results_spec (db : List (Int × ChunkRec)) (θ now : ℚ)
    (filt : Option (ChunkRec → Bool)) :
    ∀ hits r, r ∈ build_results db θ now filt hits →
      r.combined_score = r.similarity_score * (5/10) +
        r.authority_score * (3/10) + r.temporal_score * (2/10) ∧
      θ ≤ r.similarity_score
  | [], r, h => absurd h (List.not_mem_nil r)
  | (score, idx) :: rest, r, h => by
    simp only [build_results] at h
    split at h
    · exact build_results_spec db θ now filt rest r h
    · split at h
      · exact build_results_spec db θ now filt rest r h
      · rename_i hth
        split at h
        · exact build_results_spec db θ now filt rest r h
        · split at h
          · rcases List.mem_cons.mp h with rfl | h
            · exact ⟨rfl, le_of_not_lt hth⟩
            · exact build_results_spec db θ now filt rest r h
          · exact build_results_spec db θ now filt rest r h

theorem fallback_build_spec (query_words : List (List Char))
    (filt : Option (ChunkRec → Bool)) (now : ℚ) :
    ∀ entries r, r ∈ fallback_build query_words filt now entries →
      r.combined_score = r.similarity_score * (6/10) +
        r.authority_score * (3/10) + r.temporal_score * (1/10)
  | [], r, h => absurd h (List.not_mem_nil r)
  | (idx, cm) :: rest, r, h => by
    simp only [fallback_build] at h
    split at h
    · exact fallback_build_spec query_words filt now rest r h
    · split at h
      · exact fallback_build_spec query_words filt now rest r h
      · split at h
        · rcases List.mem_cons.mp h with rfl | h
          · exact rfl
          · exact fallback_build_spec query_words filt now rest r h
        · exact fallback_build_spec query_words filt now rest r h

theorem es_build_spec (θ now : ℚ) :
    ∀ hits r, r ∈ es_build θ now hits →
      r.combined_score = r.similarity_score * (5/10) +
        r.authority_score * (3/10) + r.temporal_score * (2/10) ∧
      θ ≤ r.similarity_score
  | [], r, h => absurd h (List.not_mem_nil r)
  | hit :: rest, r, h => by
    simp only [es_build] at h
    split at h
    · exact es_build_spec θ now rest r h
    · rename_i hth
      rcases List.mem_cons.mp h with rfl | h
      · exact ⟨rfl, le_of_not_lt hth⟩
      · exact es_build_spec θ now rest r h

/-- Every result of `search_similar_chunks` descends from a candidate built
by `build_results`, with all four scores unchanged. -/
theorem mem_search_similar_chunks {db : List (Int × ChunkRec)}
    {hits : List (ℚ × Int)} {top_k : Nat} {θ now : ℚ}
    {filt : Option (ChunkRec → Bool)} {r : RetrievalResult}
    (h : r ∈ search_similar_chunks db hits top_k θ now filt) :
    ∃ r' ∈ build_results db θ now filt hits,
      r.similarity_score = r'.similarity_score ∧
      r.authority_score = r'.authority_score ∧
      r.temporal_score = r'.temporal_score ∧
      r.combined_score = r'.combined_score := by
  obtain ⟨r', hr', _, hfields⟩ := assign_ranks_mem h
  exact ⟨r', (sortDescBy_perm _ _).subset (List.take_subset _ _ hr'), hfields⟩

theorem mem_fallback_search {db : List (Int × ChunkRec)} {query : List Char}
    {top_k : Nat} {filt : Option (ChunkRec → Bool)} {now : ℚ}
    {r : RetrievalResult} (h : r ∈ fallback_search db query top_k filt now) :
    ∃ r' ∈ fallback_build ((pyWords (pyLower query)).dedup) filt now db,
      r.similarity_score = r'.similarity_score ∧
      r.authority_score = r'.authority_score ∧
      r.temporal_score = r'.temporal_score ∧
      r.combined_score = r'.combined_score := by
  obtain ⟨r', hr', _, hfields⟩ := assign_ranks_mem h
  exact ⟨r', (sortDescBy_perm _ _).subset (List.take_subset _ _ hr'), hfields⟩

theorem mem_es_search_similar_chunks {st : EsState}
    {resp : Except String (List EsHit)} {top_k : Nat} {θ now : ℚ}
    {r : RetrievalResult} (h : r ∈ es_search_similar_chunks st resp top_k θ now) :
    ∃ hits, resp = .ok hits ∧
      ∃ r' ∈ es_build θ now hits,
        r.similarity_score = r'.similarity_score ∧
        r.authority_score = r'.authority_score ∧
        r.temporal_score = r'.temporal_score ∧
        r.combined_score = r'.combined_score := by
  unfold es_search_similar_chunks at h
  split at h
  · split at h
    · exact absurd h (List.not_mem_nil r)
    · rename_i hits
      obtain ⟨r', hr', _, hfields⟩ := assign_ranks_mem h
      exact ⟨hits, rfl,
        ⟨r', (sortDescBy_perm _ _).subset (List.take_subset _ _ hr'), hfields⟩⟩
  · exact absurd h (List.not_mem_nil r)

/-! ## Claim C2: the combined-score formula -/
/-- Claim C2, amended:  The FAISS-backed path and the Elasticsearch path both
combine scores as `0.5·similarity + 0.3·authority + 0.2·temporal`, but the
degraded fallback path (`_fallback_search`) uses
`0.6·similarity + 0.3·authority + 0.1·temporal`. -/
theorem combined_score_weights :
    (∀ db hits top_k θ now filt,
      ∀ r ∈ search_similar_chunks db hits top_k θ now filt,
        r.combined_score = r.similarity_score * (5/10) +
          r.authority_score * (3/10) + r.temporal_score * (2/10)) ∧
    (∀ st resp top_k θ now,
      ∀ r ∈ es_search_similar_chunks st resp top_k θ now,
        r.combined_score = r.similarity_score * (5/10) +
          r.authority_score * (3/10) + r.temporal_score * (2/10)) ∧
    (∀ db query top_k filt now,
      ∀ r ∈ fallback_search db query top_k filt now,
        r.combined_score = r.similarity_score * (6/10) +
          r.authority_score * (3/10) + r.temporal_score * (1/10)) := by
  refine ⟨?_, ?_, ?_⟩
  · intro db hits top_k θ now filt r hr
    obtain ⟨r', hr', hs, ha, ht, hc⟩ := mem_search_similar_chunks hr
    rw [hc, hs, ha, ht]
    exact (build_results_spec db θ now filt hits r' hr').1
  · intro st resp top_k θ now r hr
    obtain ⟨hits, _, r', hr', hs, ha, ht, hc⟩ := mem_es_search_similar_chunks hr
    rw [hc, hs, ha, ht]
    exact (es_build_spec θ now hits r' hr').1
  · intro db query top_k filt now r hr
    obtain ⟨r', hr', hs, ha, ht, hc⟩ := mem_fallback_search hr
    rw [hc, hs, ha, ht]
    exact fallback_build_spec _ filt now db r' hr'

/-- Witness for `combined_score_weights` at a concrete search. -/
theorem combined_score_weights_witness :
    ∃ r, r ∈ search_similar_chunks dbAB hitsAB 10 (7/10) 0 none ∧
      r.combined_score = r.similarity_score * (5/10) +
        r.authority_score * (3/10) + r.temporal_score * (2/10) :=
  ⟨(search_similar_chunks dbAB hitsAB 10 (7/10) 0 none).head (by with_unfolding_all decide),
    List.head_mem _,
    combined_score_weights.1 dbAB hitsAB 10 (7/10) 0 none _ (List.head_mem _)⟩

/-- Claim C2, counterexample:  On a one-chunk store queried with a fully
matching word (`similarity = 1`, `authority = 0.2`, `temporal = 0.2`), the
fallback path returns `combined_score = 0.68 = 0.6·1 + 0.3·0.2 + 0.1·0.2`,
whereas the claimed formula gives `0.5·1 + 0.3·0.2 + 0.2·0.2 = 0.6`. -/
theorem fallback_weights_cex :
    ((fallback_search dbHello "hello".data 10 none nowOld).map
        (fun r => (r.similarity_score, r.authority_score,
          r.temporal_score, r.combined_score))) =
      [(1, (2/10), (2/10), (68/100))] ∧
    ¬ (((68/100) : ℚ) = 1 * (5/10) + (2/10) * (3/10) + (2/10) * (2/10)) := by
  refine ⟨by with_unfolding_all decide, by norm_num⟩

/-- Claim C3, counterexample:  Two candidates with equal combined score
0.708: the first hit `A` has similarity 0.8, the second hit `B` has
similarity 0.896.  Python's stable sort keys only on `combined_score`, so
the output keeps the hit order `[A, B]` — violating the claimed
similarity-then-id tie-break (which would put `B` first) — and presenting
the identical candidate set in the opposite hit order yields the opposite
output order `[B, A]`, so no content-based total order (and no
output-order determinism over candidate *sets*) holds. -/
theorem search_tie_break_cex :
    ((search_similar_chunks dbAB hitsAB 10 (7/10) 0 none).map
        (fun r => (r.chunk.chunk_id, r.similarity_score,
          r.combined_score, r.rank))) =
      [("A", (8/10), (708/1000), 1), ("B", (896/1000), (708/1000), 2)] ∧
    ¬ (search_similar_chunks dbAB hitsAB 10 (7/10) 0 none).Sorted spec_rank_order ∧
    ((search_similar_chunks dbAB [((208/1000), 1), ((4/10), 0)] 10 (7/10) 0 none).map
        (fun r => r.chunk.chunk_id)) = ["B", "A"] := by
  refine ⟨by with_unfolding_all decide, by with_unfolding_all decide,
    by with_unfolding_all decide⟩

/-- Claim C3, amended:  Search results are sorted in descending
`combined_score` only; Python's `list.sort` is stable, so candidates with
equal combined scores keep the order in which the backend scan produced
them (the stability equation on `sortDescBy` is stated for the FAISS
pipeline's candidate list).  The output is a pure function of the candidate
list, hence identical candidate sequences give identical output. -/
theorem search_sorted_and_stable :
    (∀ db hits top_k θ now filt,
      (search_similar_chunks db hits top_k θ now filt).Sorted
        (fun a b => b.combined_score ≤ a.combined_score)) ∧
    (∀ db query top_k filt now,
      (fallback_search db query top_k filt now).Sorted
        (fun a b => b.combined_score ≤ a.combined_score)) ∧
    (∀ st resp top_k θ now,
      (es_search_similar_chunks st resp top_k θ now).Sorted
        (fun a b => b.combined_score ≤ a.combined_score)) ∧
    (∀ db hits θ now filt q,
      (sortDescBy (fun r : RetrievalResult => r.combined_score)
          (build_results db θ now filt hits)).filter
            (fun r => r.combined_score = q) =
        (build_results db θ now filt hits).filter
          (fun r => r.combined_score = q)) := by
  refine ⟨?_, ?_, ?_, fun db hits θ now filt q => filter_sortDescBy _ q _⟩
  · intro db hits top_k θ now filt
    exact sorted_assign_ranks 1
      (List.Pairwise.sublist (List.take_sublist _ _)
        (sorted_sortDescBy (fun r : RetrievalResult => r.combined_score) _))
  · intro db query top_k filt now
    exact sorted_assign_ranks 1
      (List.Pairwise.sublist (List.take_sublist _ _)
        (sorted_sortDescBy (fun r : RetrievalResult => r.combined_score) _))
  · intro st resp top_k θ now
    unfold es_search_similar_chunks
    split
    · split
      · exact List.sorted_nil
      · exact sorted_assign_ranks 1
          (List.Pairwise.sublist (List.take_sublist _ _)
            (sorted_sortDescBy (fun r : RetrievalResult => r.combined_score) _))
    · exact List.sorted_nil

/-! ## Claim C4: threshold before ranking, contiguous ranks, top-k cut -/
/-- Claim C4, confirmed:  Every returned result's similarity is at least the
threshold (sub-threshold candidates are dropped while building the
candidate list, before sorting); the number of returned results is
`min top_k (number of threshold-passing candidates)` — so the threshold
filter happens before the `top_k` truncation — and the `rank` fields are
exactly `1, 2, ..., K`, contiguous with no gaps. -/
theorem search_threshold_rank_contract :
    ∀ db hits top_k θ now filt,
      (∀ r ∈ search_similar_chunks db hits top_k θ now filt,
        θ ≤ r.similarity_score) ∧
      (search_similar_chunks db hits top_k θ now filt).length =
        min top_k (build_results db θ now filt hits).length ∧
      (search_similar_chunks db hits top_k θ now filt).map (fun r => r.rank) =
        List.range' 1 (search_similar_chunks db hits top_k θ now filt).length := by
  intro db hits top_k θ now filt
  refine ⟨?_, ?_, ?_⟩
  · intro r hr
    obtain ⟨r', hr', hs, _, _, _⟩ := mem_search_similar_chunks hr
    rw [hs]
    exact (build_results_spec db θ now filt hits r' hr').2
  · unfold search_similar_chunks
    rw [assign_ranks_length, List.length_take, (sortDescBy_perm _ _).length_eq]
  · unfold search_similar_chunks
    rw [assign_ranks_map_rank, assign_ranks_length]

/-- Witness for `search_threshold_rank_contract` at a concrete search. -/
theorem search_threshold_rank_contract_witness :
    (∃ r, r ∈ search_similar_chunks dbAB hitsAB 10 (7/10) 0 none ∧
      ((7/10) : ℚ) ≤ r.similarity_score) ∧
    (search_similar_chunks dbAB hitsAB 10 (7/10) 0 none).length =
      min 10 (build_results dbAB (7/10) 0 none hitsAB).length ∧
    (search_similar_chunks dbAB hitsAB 10 (7/10) 0 none).map (fun r => r.rank) =
      List.range' 1 (search_similar_chunks dbAB hitsAB 10 (7/10) 0 none).length :=
  ⟨⟨(search_similar_chunks dbAB hitsAB 10 (7/10) 0 none).head (by with_unfolding_all decide),
      List.head_mem _,
      (search_threshold_rank_contract dbAB hitsAB 10 (7/10) 0 none).1 _
        (List.head_mem _)⟩,
    (search_threshold_rank_contract dbAB hitsAB 10 (7/10) 0 none).2.1,
    (search_threshold_rank_contract dbAB hitsAB 10 (7/10) 0 none).2.2⟩

/-! ## Claim C5: the compressed context's length -/
theorem takeFit_length_sum (target : Nat) :
    ∀ (l : List (Nat × List Char)) (cur : Nat), cur ≤ target →
      ((takeFit target cur l).map List.length).sum + cur ≤ target + 3
  | [], cur, h => by simpa [takeFit] using by omega
  | (n, s) :: rest, cur, h => by
    unfold takeFit
    split
    · rename_i hfit
      have ih := takeFit_length_sum target rest (cur + s.length) hfit
      simp only [List.map_cons, List.sum_cons]
      omega
    · split
      · rename_i hover h100
        have htake : (s.take (target - cur)).length ≤ target - cur :=
          List.length_take_le _ _
        simp only [List.map_cons, List.map_nil, List.sum_cons, List.sum_nil,
          List.length_append, List.length_cons, List.length_nil]
        omega
      · simp only [List.map_nil, List.sum_nil]
        omega

theorem takeFit_count (target : Nat) :
    ∀ (l : List (Nat × List Char)) (cur : Nat),
      (takeFit target cur l).length ≤ l.length
  | [], cur => le_refl 0
  | (n, s) :: rest, cur => by
    unfold takeFit
    split
    · simpa using takeFit_count target rest (cur + s.length)
    · split
      · simp
      · simp

theorem joinSep_length_le (sep : List Char) :
    ∀ l : List (List Char),
      (joinSep sep l).length ≤ (l.map List.length).sum + sep.length * l.length
  | [] => by simp [joinSep]
  | [s] => by simp [joinSep]
  | s :: s' :: rest => by
    have ih := joinSep_length_le sep (s' :: rest)
    simp only [joinSep, List.length_append, List.map_cons, List.sum_cons,
      List.length_cons] at ih ⊢
    have : sep.length * (rest.length + 1 + 1) =
        sep.length * (rest.length + 1) + sep.length := by ring
    omega

/-- Claim C5, amended:  `compress_context` counts only the kept sections'
characters against the budget, not the `"\n\n"` separators re-inserted by
the final join, so the returned string's length is bounded by
`target_length + 3 + 2 · (number of sections)` — not by
`target_length + 3`; the overshoot grows with the number of kept sections.
The last kept section is truncated with the `"..."` marker only when
strictly more than 100 budget characters remain, and is dropped entirely
otherwise. -/
theorem compress_context_length_bound :
    (∀ (context : List Char) (target_length : Nat),
      (compress_context context target_length).length ≤
        target_length + 3 + 2 * (splitOnNN context).length) ∧
    (∀ (target cur n : Nat) (s : List Char) (rest : List (Nat × List Char)),
      target < cur + s.length →
        takeFit target cur ((n, s) :: rest) =
          (if 100 < target - cur then [s.take (target - cur) ++ "...".data]
            else [])) := by
  constructor
  · intro context target_length
    unfold compress_context
    split
    · rename_i h
      omega
    · show (joinSep ('\n' :: '\n' :: [])
          (takeFit target_length 0 (sortDescBy (fun p : Nat × List Char => p.1)
            ((splitOnNN context).map (fun s => (sectionScore s, s)))))).length ≤
        target_length + 3 + 2 * (splitOnNN context).length
      have hsum := takeFit_length_sum target_length
        (sortDescBy (fun p => p.1) ((splitOnNN context).map
          (fun s => (sectionScore s, s)))) 0 (Nat.zero_le _)
      have hcount := takeFit_count target_length
        (sortDescBy (fun p => p.1) ((splitOnNN context).map
          (fun s => (sectionScore s, s)))) 0
      have hperm : (sortDescBy (fun p : Nat × List Char => p.1)
          ((splitOnNN context).map (fun s => (sectionScore s, s)))).length =
          ((splitOnNN context).map (fun s => (sectionScore s, s))).length :=
        (sortDescBy_perm _ _).length_eq
      have hjoin := joinSep_length_le ('\n' :: '\n' :: [])
        (takeFit target_length 0 (sortDescBy (fun p : Nat × List Char => p.1)
          ((splitOnNN context).map (fun s => (sectionScore s, s)))))
      simp only [List.length_cons, List.length_nil, List.length_map] at hjoin hperm
      omega
  · intro target cur n s rest hover
    unfold takeFit
    rw [if_neg (by omega)]

/-- Claim C5, counterexample:  `context = "aa\n\nbb\n\ncc\n\ndd\n\nee"`
(length 18, five sections of two characters) with `target_length = 10`:
every section fits the running budget (2+2+2+2+2 = 10 ≤ 10), so the code
returns the whole 18-character string — the four re-inserted `"\n\n"`
separators are never counted — exceeding `target_length` plus the
3-character ellipsis marker. -/
theorem compress_context_cex :
    compress_context "aa\n\nbb\n\ncc\n\ndd\n\nee".data 10 =
      "aa\n\nbb\n\ncc\n\ndd\n\nee".data ∧
    ("aa\n\nbb\n\ncc\n\ndd\n\nee".data).length = 18 ∧
    ¬ ((compress_context "aa\n\nbb\n\ncc\n\ndd\n\nee".data 10).length ≤ 10 + 3) := by
  refine ⟨by with_unfolding_all decide, by decide, by with_unfolding_all decide⟩

theorem batchLoop_eq_map (m : String → List ℚ) (batch_size : Nat)
    (hbs : 1 ≤ batch_size) :
    ∀ (fuel : Nat) (texts : List String), texts.length ≤ fuel →
      batchLoop m batch_size fuel texts = texts.map m := by
  intro fuel
  induction fuel with
  | zero =>
    intro texts htexts
    cases texts with
    | nil => rfl
    | cons t rest => simp at htexts
  | succ fuel ih =>
    intro texts htexts
    cases texts with
    | nil => rfl
    | cons t rest =>
      obtain ⟨b, rfl⟩ : ∃ b, batch_size = b + 1 :=
        ⟨batch_size - 1, by omega⟩
      show ((t :: rest).take (b + 1)).map m ++
          batchLoop m (b + 1) fuel (rest.drop (b + 1 - 1)) = (t :: rest).map m
      rw [ih (rest.drop (b + 1 - 1))
        (by simp only [List.length_drop]; simp only [List.length_cons] at htexts; omega)]
      simp only [List.take_succ_cons, List.map_cons, Nat.add_sub_cancel,
        List.cons_append, ← List.map_append, List.take_append_drop]

/-- Claim C7, code bug:  When the sentence-transformer backend is
unavailable, `embed_text` returns `np.random.random(...)` — a fresh draw
from the entropy source on every call — so two successive invocations on
the same text return different vectors: with the concrete stream of
`stNoModel`, the first call yields `[0]` and the second `[1]`.  The
specification's contract says embedding is deterministic, and itself flags
the random-vector fallback as a likely latent bug to be replaced. -/
theorem embed_text_unavailable_random :
    (embed_text id stNoModel "x" true).1 = [(0 : ℚ)] ∧
    (embed_text id (embed_text id stNoModel "x" true).2 "x" true).1 = [(1 : ℚ)] ∧
    (embed_text id stNoModel "x" true).1 ≠
      (embed_text id (embed_text id stNoModel "x" true).2 "x" true).1 := by
  refine ⟨by with_unfolding_all rfl, by with_unfolding_all rfl,
    by with_unfolding_all decide⟩

/-! ## Claim C8: `embed_batch` versus `embed_text` and the cache -/
/-- Claim C8, amended:  `embed_batch` always invokes the model and neither
reads nor writes the embedding cache.  Consequently
`embed_batch(texts)[i] = embed_text(texts[i])` holds exactly under the
cache-consistency hypothesis that every cached entry for the texts' hashes
equals the model's output (as when the cache was populated only by
`embed_text` under the same model); `embed_text` alone honours the
content-addressed cache: on a hit it returns the stored vector unchanged,
leaves the state untouched, and does not consult the model (its result is
the same for every model function). -/
theorem embed_batch_vs_embed_text (hashFn : String → String)
    (st : EmbedState) (m : String → List ℚ) (hm : st.modelFn = some m)
    (texts : List String)
    (hc : ∀ t ∈ texts, ∀ v, st.cache (hashFn t) = some v → v = m t) :
    (embed_batch st texts 32).1 = texts.map m ∧
    (∀ i (hi : i < texts.length),
      ((embed_batch st texts 32).1)[i]? =
        some ((embed_text hashFn st (texts.get ⟨i, hi⟩) true).1)) ∧
    (∀ t v, st.cache (hashFn t) = some v →
      embed_text hashFn st t true = (v, st) ∧
      ∀ m' : String → List ℚ,
        (embed_text hashFn { st with modelFn := some m' } t true).1 = v) := by
  have hbatch : (embed_batch st texts 32).1 = texts.map m := by
    unfold embed_batch
    rw [hm]
    exact batchLoop_eq_map m 32 (by omega) texts.length texts (le_refl _)
  have htext : ∀ t ∈ texts, (embed_text hashFn st t true).1 = m t := by
    intro t ht
    unfold embed_text
    rw [hm]
    simp only [if_true]
    cases hcache : st.cache (hashFn t) with
    | none => rfl
    | some v =>
      show v = m t
      exact hc t ht v hcache
  refine ⟨hbatch, ?_, ?_⟩
  · intro i hi
    rw [hbatch, List.getElem?_map, htext (texts.get ⟨i, hi⟩) (texts.get_mem _ _),
      List.getElem?_eq_getElem hi, Option.map_some', List.get_eq_getElem]
  · intro t v hv
    constructor
    · unfold embed_text
      rw [hm]
      simp only [if_true, hv]
    · intro m'
      unfold embed_text
      simp only [hv, if_true]

/-- Witness for `embed_batch_vs_embed_text` on a concrete consistent
state. -/
theorem embed_batch_vs_embed_text_witness :
    (embed_batch stConsistent ["a"] 32).1 = ["a"].map (fun _ => [(5 : ℚ)]) ∧
    embed_text id stConsistent "a" true = ([(5 : ℚ)], stConsistent) := by
  have hc : ∀ t ∈ ["a"], ∀ v : List ℚ,
      stConsistent.cache (id t) = some v → v = (fun _ : String => [(5 : ℚ)]) t := by
    intro t ht v hv
    rcases List.mem_singleton.mp ht with rfl
    have : some [(5 : ℚ)] = some v := by
      rw [← hv]
      with_unfolding_all rfl
    exact (Option.some.inj this).symm
  have hmain := embed_batch_vs_embed_text id stConsistent
    (fun _ => [(5 : ℚ)]) rfl ["a"] hc
  refine ⟨hmain.1, (hmain.2.2 "a" [(5 : ℚ)] ?_).1⟩
  with_unfolding_all rfl

/-- Claim C8, counterexample:  `embed_batch` bypasses the cache: with a cache
holding `[9]` for the hash of `"a"` while the model returns `[0]`,
`embed_batch(["a"])` returns `[[0]]` (invoking the model) while
`embed_text("a")` returns `[9]` (the cached vector), so batch and single
embedding disagree element-wise and the batch path does not return the
stored vector. -/
theorem embed_batch_cache_cex :
    (embed_batch stStale ["a"] 32).1 = [[(0 : ℚ)]] ∧
    (embed_text id stStale "a" true).1 = [(9 : ℚ)] ∧
    (embed_batch stStale ["a"] 32).1 ≠ [(embed_text id stStale "a" true).1] := by
  refine ⟨by with_unfolding_all rfl, by with_unfolding_all rfl,
    by with_unfolding_all decide⟩

/-! ## Claim C9: re-ingestion of the same document -/
theorem mem_keys_dictSet_self {κ β : Type} [DecidableEq κ]
    (l : List (κ × β)) (k : κ) (v : β) :
    k ∈ (dictSet l k v).map Prod.fst := by
  induction l with
  | nil => simp [dictSet]
  | cons kv rest ih =>
    obtain ⟨k', v'⟩ := kv
    unfold dictSet
    split
    · rename_i h
      simp [h]
    · rw [List.map_cons]
      exact List.mem_cons_of_mem _ ih

theorem mem_keys_dictSet_mono {κ β : Type} [DecidableEq κ]
    (l : List (κ × β)) (k : κ) (v : β) {k' : κ}
    (h : k' ∈ l.map Prod.fst) : k' ∈ (dictSet l k v).map Prod.fst := by
  induction l with
  | nil => simp at h
  | cons kv rest ih =>
    obtain ⟨k0, v0⟩ := kv
    rw [List.map_cons] at h
    unfold dictSet
    rcases List.mem_cons.mp h with rfl | hrest
    · split
      · rw [List.map_cons]
        exact List.mem_cons_self _ _
      · rw [List.map_cons]
        exact List.mem_cons_self _ _
    · split
      · rw [List.map_cons]
        exact List.mem_cons_of_mem _ hrest
      · rw [List.map_cons]
        exact List.mem_cons_of_mem _ (ih hrest)

theorem dictSet_length_of_mem {κ β : Type} [DecidableEq κ]
    (l : List (κ × β)) (k : κ) (v : β) (h : k ∈ l.map Prod.fst) :
    (dictSet l k v).length = l.length := by
  induction l with
  | nil => simp at h
  | cons kv rest ih =>
    obtain ⟨k0, v0⟩ := kv
    rw [List.map_cons] at h
    unfold dictSet
    rcases List.mem_cons.mp h with rfl | hrest
    · split
      · simp
      · rename_i hne
        exact absurd rfl hne
    · split
      · simp
      · simpa using ih hrest

theorem foldl_step_keys_mono (d : Document) (now : ℚ) :
    ∀ (chunks : List ChunkRec) (idx : List (String × EsRec)) {k : String},
      k ∈ idx.map Prod.fst →
        k ∈ (chunks.foldl (es_index_step d now) idx).map Prod.fst
  | [], _, _, h => h
  | c :: rest, idx, k, h =>
    foldl_step_keys_mono d now rest (es_index_step d now idx c)
      (mem_keys_dictSet_mono idx c.chunk_id (es_doc_body d c now) h)

theorem foldl_step_keys_self (d : Document) (now : ℚ) :
    ∀ (chunks : List ChunkRec) (idx : List (String × EsRec)) {c : ChunkRec},
      c ∈ chunks →
        c.chunk_id ∈ (chunks.foldl (es_index_step d now) idx).map Prod.fst
  | [], _, c, h => absurd h (List.not_mem_nil c)
  | c0 :: rest, idx, c, h => by
    rcases List.mem_cons.mp h with rfl | hrest
    · exact foldl_step_keys_mono d now rest _
        (mem_keys_dictSet_self idx c.chunk_id (es_doc_body d c now))
    · exact foldl_step_keys_self d now rest _ hrest

theorem foldl_step_length (d : Document) (now : ℚ) :
    ∀ (chunks : List ChunkRec) (idx : List (String × EsRec)),
      (∀ c ∈ chunks, c.chunk_id ∈ idx.map Prod.fst) →
        (chunks.foldl (es_index_step d now) idx).length = idx.length
  | [], _, _ => rfl
  | c :: rest, idx, h => by
    have hlen := dictSet_length_of_mem idx c.chunk_id (es_doc_body d c now)
      (h c (List.mem_cons_self c rest))
    have hrest : ∀ c' ∈ rest, c'.chunk_id ∈
        (es_index_step d now idx c).map Prod.fst := fun c' hc' =>
      mem_keys_dictSet_mono idx c.chunk_id (es_doc_body d c now)
        (h c' (List.mem_cons_of_mem c hc'))
    show (rest.foldl (es_index_step d now) (es_index_step d now idx c)).length =
      idx.length
    rw [foldl_step_length d now rest _ hrest]
    exact hlen

/-- The chunk ids produced by `create_chunks` do not depend on the clock
reading (they are `{document_id}_chunk_{i:04d}`). -/
theorem create_chunks_ids (d : Document) (chunk_size : Nat) (now now' : ℚ) :
    (create_chunks d chunk_size now).map (fun c => c.chunk_id) =
      (create_chunks d chunk_size now').map (fun c => c.chunk_id) := by
  simp only [create_chunks, List.map_map]
  rfl

theorem create_chunks_length (d : Document) (chunk_size : Nat) (now now' : ℚ) :
    (create_chunks d chunk_size now).length =
      (create_chunks d chunk_size now').length := by
  simp [create_chunks]

/-- On a successful, available backend, `es_add_document` indexes exactly
the created chunks by upsert. -/
theorem es_add_document_eq (st : EsState) (hav : st.available = true)
    (d : Document) (chunk_size : Nat) (now : ℚ)
    (hnil : create_chunks d chunk_size now ≠ []) :
    es_add_document st d chunk_size now true =
      ((create_chunks d chunk_size now).length,
        { st with index :=
            ((create_chunks d chunk_size now).foldl
              (es_index_step d now) st.index) }) := by
  unfold es_add_document
  rw [hav]
  simp only [if_true, if_neg hnil]

/-- Claim C9, amended:  In the Elasticsearch variant, re-ingesting the same
document — at any later clock reading — leaves the index with exactly the
chunk count of one ingestion: chunk ids are a deterministic function of the
document and indexing upserts by id, so the second ingestion replaces the
first, with no duplicates and no orphans.  (The local FAISS variant does
*not* have this property — see the counterexample.) -/
theorem es_reingestion_idempotent :
    ∀ (st : EsState) (d : Document) (chunk_size : Nat) (now now' : ℚ),
      es_chunk_count (es_add_document
          (es_add_document st d chunk_size now true).2 d chunk_size now' true).2 =
        es_chunk_count (es_add_document st d chunk_size now true).2 := by
  intro st d chunk_size now now'
  by_cases hav : st.available = true
  case neg =>
    have hav' : st.available = false := by simpa using hav
    simp [es_add_document, hav', es_chunk_count]
  case pos =>
    by_cases hnil : create_chunks d chunk_size now = []
    · have hnil' : create_chunks d chunk_size now' = [] := by
        have hl := create_chunks_length d chunk_size now' now
        rw [hnil] at hl
        exact List.length_eq_zero.mp (by simpa using hl)
      unfold es_add_document
      rw [hav]
      simp [hnil, hnil', hav]
    · have hnil' : create_chunks d chunk_size now' ≠ [] := by
        intro hcontra
        have hl := create_chunks_length d chunk_size now now'
        rw [hcontra] at hl
        exact hnil (List.length_eq_zero.mp (by simpa using hl))
      rw [es_add_document_eq st hav d chunk_size now hnil]
      rw [es_add_document_eq _ (by exact hav) d chunk_size now' hnil']
      unfold es_chunk_count
      have hpresent : ∀ c' ∈ create_chunks d chunk_size now',
          c'.chunk_id ∈ ((create_chunks d chunk_size now).foldl
            (es_index_step d now) st.index).map Prod.fst := by
        intro c' hc'
        have hmem : c'.chunk_id ∈ (create_chunks d chunk_size now).map
            (fun c => c.chunk_id) := by
          rw [create_chunks_ids d chunk_size now now']
          exact List.mem_map_of_mem _ hc'
        obtain ⟨c, hc, hceq⟩ := List.mem_map.mp hmem
        rw [← hceq]
        exact foldl_step_keys_self d now _ st.index hc
      exact foldl_step_length d now' (create_chunks d chunk_size now') _ hpresent

/-- Claim C9, counterexample:  In the local FAISS variant,
`add_chunk_to_index` appends every chunk under a fresh `next_index` key and
never removes the previous ingestion's chunks, so ingesting the same
one-chunk document twice leaves `get_chunk_count` at 2, not at the
single-ingestion count 1. -/
theorem v_reingestion_duplicates_cex :
    get_chunk_count (v_add_document
        (v_add_document vEmpty docD 1024 0).2 docD 1024 0).2 = 2 ∧
    get_chunk_count (v_add_document vEmpty docD 1024 0).2 = 1 ∧
    (2 : Nat) ≠ 1 := by
  refine ⟨by with_unfolding_all rfl, by with_unfolding_all rfl, by decide⟩

/-- Witness for `es_add_document_eq` and `es_reingestion_idempotent` on a
concrete state: the idempotence equation instantiated at an empty available
index. -/
theorem es_reingestion_idempotent_witness :
    es_chunk_count (es_add_document
        (es_add_document ⟨true, []⟩ docD 1024 0 true).2 docD 1024 0 true).2 =
      es_chunk_count (es_add_document ⟨true, []⟩ docD 1024 0 true).2 :=
  es_reingestion_idempotent ⟨true, []⟩ docD 1024 0 0

/-! ## Claim C10: typed results when the Elasticsearch backend is
unavailable -/
/-- Claim C10, confirmed:  When the Elasticsearch client is absent or the
connection failed (`available = false`), `add_document` returns 0 chunks
with the state unchanged, `search_similar_chunks` returns the empty result
list, and `delete_document` returns `False` — and when the backend call
itself raises (an `error` reply for search, `backendOk = false` for
add/delete), the wrapper catches it and returns the same typed results
instead of letting the exception escape. -/
theorem es_unavailable_contract :
    (∀ st : EsState, st.available = false →
      (∀ d chunk_size now backendOk,
        es_add_document st d chunk_size now backendOk = (0, st)) ∧
      (∀ resp top_k θ now,
        es_search_similar_chunks st resp top_k θ now = []) ∧
      (∀ docId backendOk,
        es_delete_document st docId backendOk = (false, st))) ∧
    (∀ (st : EsState) (e : String) (top_k : Nat) (θ now : ℚ),
      es_search_similar_chunks st (.error e) top_k θ now = []) ∧
    (∀ (st : EsState) (d : Document) (chunk_size : Nat) (now : ℚ),
      (es_add_document st d chunk_size now false).1 = 0) ∧
    (∀ (st : EsState) (docId : String),
      (es_delete_document st docId false).1 = false) := by
  refine ⟨?_, ?_, ?_, ?_⟩
  · intro st hav
    refine ⟨?_, ?_, ?_⟩
    · intro d chunk_size now backendOk
      unfold es_add_document
      rw [hav]
      rfl
    · intro resp top_k θ now
      unfold es_search_similar_chunks
      rw [hav]
      rfl
    · intro docId backendOk
      unfold es_delete_document
      rw [hav]
      rfl
  · intro st e top_k θ now
    unfold es_search_similar_chunks
    by_cases hav : st.available = true
    · simp [hav]
    · have hav' : st.available = false := by simpa using hav
      simp [hav']
  · intro st d chunk_size now
    unfold es_add_document
    by_cases hav : st.available = true
    · rw [hav]
      by_cases hnil : create_chunks d chunk_size now = [] <;> simp [hnil]
    · have hav' : st.available = false := by simpa using hav
      rw [hav']
      rfl
  · intro st docId
    unfold es_delete_document
    by_cases hav : st.available = true
    · simp [hav]
    · have hav' : st.available = false := by simpa using hav
      simp [hav']

/-- Witness for `es_unavailable_contract` on a concrete unavailable
state. -/
theorem es_unavailable_contract_witness :
    es_add_document esDown docD 1024 0 true = (0, esDown) ∧
    es_search_similar_chunks esDown (.ok []) 10 (7/10) 0 = [] ∧
    es_delete_document esDown "D" true = (false, esDown) :=
  ⟨(es_unavailable_contract.1 esDown rfl).1 docD 1024 0 true,
    (es_unavailable_contract.1 esDown rfl).2.1 (.ok []) 10 (7/10) 0,
    (es_unavailable_contract.1 esDown rfl).2.2 "D" true⟩

/-- Witness for `compress_context_length_bound`: the bound at a concrete
input, and the truncation equation at a concrete overflowing section. -/
theorem compress_context_length_bound_witness :
    (compress_context "hello".data 3).length ≤
      3 + 3 + 2 * (splitOnNN "hello".data).length ∧
    takeFit 5 0 [(0, "aaaaaaaaaa".data)] =
      (if 100 < 5 - 0 then [("aaaaaaaaaa".data).take (5 - 0) ++ "...".data]
        else []) :=
  ⟨compress_context_length_bound.1 "hello".data 3,
    compress_context_length_bound.2 5 0 0 "aaaaaaaaaa".data [] (by decide)⟩
